import Mathlib

/-!
Verification of the issue-relevance matching engine of the `auto-commit` CLI.

The TypeScript sources are shallowly embedded: strings are Lean `String`s
(ASCII contents, as produced by the tool's diff/issue plumbing), JavaScript
array/`Set` operations become list operations with explicit insertion-order
deduplication, and the fixed regular expressions of the source are compiled by
hand into dedicated scanning functions.  External processes (`git`, `gh`, the
LLM call) and the interactive prompt are modelled by an environment record
holding the result each call site would observe; control flow around those
calls is transcribed from the source.
-/

set_option maxRecDepth 100000
set_option maxHeartbeats 2000000

namespace AutoCommit

/-! ## JavaScript string primitives -/

/-- JS `\w` character class: `[A-Za-z0-9_]`. -/
def isWordChar (c : Char) : Bool :=
  (('a' ≤ c) && (c ≤ 'z')) || (('A' ≤ c) && (c ≤ 'Z')) ||
  (('0' ≤ c) && (c ≤ '9')) || (c = '_')

/-- JS `\s` character class, restricted to its ASCII members
`[\t\n\v\f\r ]` (the inputs handled by the tool are ASCII). -/
def isJsWs (c : Char) : Bool :=
  (c = ' ') || (c = '\t') || (c = '\n') || (c = '\r') ||
  (c = Char.ofNat 11) || (c = Char.ofNat 12)

/-- JS `\d` character class: `[0-9]`. -/
def isDigitChar (c : Char) : Bool :=
  ('0' ≤ c) && (c ≤ '9')

/-- ASCII lower-casing (JS `String.prototype.toLowerCase` on ASCII data). -/
def jsToLower (s : String) : String :=
  ⟨s.data.map Char.toLower⟩

/-- `pat` occurs as a contiguous run inside `hay`. -/
def hasSubrun (hay pat : List Char) : Bool :=
  match hay with
  | [] => pat.isEmpty
  | _ :: t => pat.isPrefixOf hay || hasSubrun t pat

/-- JS `hay.includes(pat)`: `pat` occurs as a contiguous substring of `hay`. -/
def jsIncludes (hay pat : String) : Bool :=
  hasSubrun hay.data pat.data

/-- JS `String.prototype.trim` (ASCII whitespace). -/
def jsTrim (s : String) : String :=
  ⟨((s.data.dropWhile isJsWs).reverse.dropWhile isJsWs).reverse⟩

/-- One insertion into a JS `Set` viewed as an insertion-ordered list. -/
def addUnique [DecidableEq α] (l : List α) (x : α) : List α :=
  if x ∈ l then l else l ++ [x]

/-- `[...new Set(l)]`: deduplicate keeping first occurrences in order. -/
def jsDedup [DecidableEq α] (l : List α) : List α :=
  l.foldl addUnique []

/-- JS `test(/^\d+$/)`: the string is a nonempty run of decimal digits. -/
def isAllDigits (s : String) : Bool :=
  (!s.data.isEmpty) && s.data.all isDigitChar

/-- Numeric value of a digit run (radix 10). -/
def digitsToNat (l : List Char) : Nat :=
  l.foldl (fun n c => n * 10 + (c.toNat - 48)) 0

/-- JS `parseInt(s, 10)`: skip leading whitespace, optional sign, then a
maximal digit prefix; `none` models `NaN`. -/
def jsParseInt (s : String) : Option Int :=
  let l := s.data.dropWhile isJsWs
  let core : List Char → Option Nat := fun cs =>
    let ds := cs.takeWhile isDigitChar
    if ds.isEmpty then none else some (digitsToNat ds)
  match l with
  | '-' :: rest => (core rest).map (fun n => -(n : Int))
  | '+' :: rest => (core rest).map (fun n => (n : Int))
  | _ => (core l).map (fun n => (n : Int))

/-- JS `s.split(/\s+/)` on the character list: segments between maximal
whitespace runs (a leading/trailing run yields an empty boundary segment,
exactly as in JS). Fuel is an upper bound on the number of separators. -/
def splitWsRunsAux (fuel : Nat) (s : List Char) : List (List Char) :=
  match fuel with
  | 0 => [s]
  | fuel + 1 =>
    let word := s.takeWhile (fun c => !isJsWs c)
    let rest := s.dropWhile (fun c => !isJsWs c)
    match rest with
    | [] => [word]
    | _ :: _ => word :: splitWsRunsAux fuel (rest.dropWhile isJsWs)

/-- JS `s.split(/\s+/)` as a `String` operation. -/
def splitWsRuns (s : String) : List String :=
  (splitWsRunsAux s.length s.data).map List.asString

/-- Split a character list at a separator, keeping empty segments. -/
def splitCharAux (sep : Char) : List Char → List Char → List (List Char)
  | [], acc => [acc.reverse]
  | c :: cs, acc =>
    if c = sep then acc.reverse :: splitCharAux sep cs []
    else splitCharAux sep cs (c :: acc)

/-- JS `s.split(c)` for a single-character separator: all segments between
occurrences of `c`, including empty ones. -/
def splitChar (s : String) (c : Char) : List String :=
  (splitCharAux c s.data []).map List.asString

/-- JS `s.startsWith(pre)` (structural, kernel-reducible). -/
def jsStartsWith (s pre : String) : Bool :=
  pre.data.isPrefixOf s.data

/-- Drop the first `n` characters (JS `s.substring(n)` for `n` within
bounds). -/
def strDrop (s : String) (n : Nat) : String :=
  ⟨s.data.drop n⟩

/-- Membership of a character (JS `s.includes(c)` for one character). -/
def strContains (s : String) (c : Char) : Bool :=
  s.data.contains c

/-- Join strings with a separator (JS `Array.prototype.join`). -/
def joinWith (sep : String) (l : List String) : String :=
  ⟨List.intercalate sep.data (l.map String.data)⟩

namespace Utils

/-- Stop-word list of common English function words from
`src/utils.ts` (first revision, `extractKeywordsFromDiff`, `commonWords`). -/
def commonWords : List String :=
  ["the", "and", "for", "with", "this", "that", "from", "are", "was", "were",
   "will", "would", "could", "should", "have", "has", "had", "not", "but",
   "or", "if", "then", "else", "when", "while", "do", "does", "did", "done",
   "in", "on", "at", "by", "to", "of", "a", "an", "is", "it", "as", "be",
   "can", "may", "might", "must", "shall", "which", "who", "whom", "whose",
   "what", "where", "why", "how", "all", "any", "some", "no", "none", "one",
   "two", "three", "four", "five", "six", "seven", "eight", "nine", "ten"]

/-- Git bookkeeping tokens filtered out of raw words:
regex `/^(diff|index|@@|commit|author|date|message)$/i` in
`src/utils.ts`, `extractKeywordsFromDiff`. -/
def gitTerms : List String :=
  ["diff", "index", "@@", "commit", "author", "date", "message"]

/-- API/programming term catalogue `apiTerms` of
`src/utils.ts`, `extractKeywordsFromDiff`. -/
def apiTerms : List String :=
  ["api", "auth", "token", "config", "provider", "client", "server",
   "model", "data", "service", "handler", "controller", "component",
   "interface", "class", "function", "method", "property", "parameter"]

/-- LLM-related term catalogue `llmTerms` of
`src/utils.ts`, `extractKeywordsFromDiff`. -/
def llmTerms : List String :=
  ["llm", "langchain", "anthropic", "claude", "openai", "gpt",
   "ollama", "mistral", "token", "model", "provider", "prompt"]

/-- Regex `/[a-z][A-Z]/.test w`: the word has an internal camel-case
transition. -/
def hasCamelTransition (s : String) : Bool :=
  (s.data.zip s.data.tail).any
    (fun p => ('a' ≤ p.1 && p.1 ≤ 'z') && ('A' ≤ p.2 && p.2 ≤ 'Z'))

/-- Replace every character outside `[\w\s.-]` by a space
(`.replace(/[^\w\s.-]/g, ' ')`). -/
def scrubNonWord (s : String) : String :=
  ⟨s.data.map (fun c =>
    if isWordChar c || isJsWs c || c = '.' || c = '-' then c else ' ')⟩

/-- The added lines of the diff, markers stripped, trimmed, joined by
spaces (`extractKeywordsFromDiff`, first step). -/
def addedLines (diff : String) : String :=
  joinWith " "
    (((splitChar diff '\n').filter
        (fun line => jsStartsWith line "+" && !jsStartsWith line "+++")).map
      (fun line => jsTrim (strDrop line 1)))

/-- The `rawWords` of `extractKeywordsFromDiff`: whitespace-separated
tokens of the scrubbed added lines, kept when longer than 3 characters,
not purely numeric, not a CLI flag, and not a git bookkeeping token. -/
def rawWords (diff : String) : List String :=
  (splitWsRuns (scrubNonWord (addedLines diff))).filter
    (fun word =>
      decide (3 < word.length) && !isAllDigits word &&
      !jsStartsWith word "--" && !(gitTerms.contains (jsToLower word)))

/-- Lexical keyword extraction `extractKeywordsFromDiff` of
`src/utils.ts` (second revision, the one imported by `src/gh/ghOps.ts`):
camel-case words, separator-joined words, words containing an API term,
and LLM catalogue terms found anywhere in the diff are collected into an
insertion-ordered set, raw words are appended, and the deduplicated list
is capped at 20. -/
def extractKeywordsFromDiff (diff : String) : List String :=
  let raw := rawWords diff
  let camelCaseTerms := (raw.filter hasCamelTransition).map jsToLower
  let separatedTerms :=
    (raw.filter (fun w => strContains w '_' || strContains w '-')).map jsToLower
  let apiMatched := raw.filterMap (fun w =>
    let lw := jsToLower w
    if apiTerms.any (fun t => jsIncludes lw t) then some lw else none)
  let diffLower := jsToLower diff
  let llmPresent := llmTerms.filter (fun t => jsIncludes diffLower t)
  let technicalTerms :=
    (camelCaseTerms ++ separatedTerms ++ apiMatched ++ llmPresent).foldl
      addUnique []
  let keywords :=
    technicalTerms ++ (raw.map jsToLower).filter (fun w => 3 < w.length)
  (jsDedup keywords).take 20

/-- Clean-up pass over the LLM response: the global, case-insensitive
replacement `response.replace(/^keywords:|\.$|^.*?:|\n/gi, '')` of
`extractKeywordsUsingLLM`.  Without the `m` flag, `^` anchors only at
index 0 and `$` only at the very end; `.` does not match a newline and
`.*?` is lazy, so the third alternative removes the shortest prefix
ending in a colon.  `atStart` tracks whether the scan is at index 0. -/
def cleanRespAux (fuel : Nat) (atStart : Bool) (s : List Char) : List Char :=
  match fuel, s with
  | 0, s => s
  | _, [] => []
  | fuel + 1, c :: cs =>
    if atStart &&
        "keywords:".data.isPrefixOf (((c :: cs).take 9).map Char.toLower) then
      cleanRespAux fuel false ((c :: cs).drop 9)
    else if c = '.' && cs.isEmpty then
      cleanRespAux fuel false cs
    else if atStart &&
        (((c :: cs).dropWhile (fun d => !(d = '\n' || d = ':'))).headD ' ')
          = ':' then
      cleanRespAux fuel false
        (((c :: cs).dropWhile (fun d => !(d = '\n' || d = ':'))).drop 1)
    else if c = '\n' then
      cleanRespAux fuel false cs
    else
      c :: cleanRespAux fuel false cs

/-- String-level clean-up of an LLM keyword response. -/
def cleanResp (s : String) : String :=
  ⟨cleanRespAux s.length true s.data⟩

/-- JS `split(/\s*,\s*|\s*;\s*|\s*\n\s*/)`: split at commas or semicolons
with surrounding whitespace, or at whitespace runs containing a newline.
The greedy `\s*` pieces force each alternative to match exactly as coded
here: the characters between the scan position and the `,`/`;` must all
be whitespace, and the newline alternative consumes the whole run. -/
def splitSepsAux (fuel : Nat) (s : List Char) (cur : List Char) :
    List (List Char) :=
  match fuel, s with
  | 0, s => [cur.reverse ++ s]
  | _, [] => [cur.reverse]
  | fuel + 1, c :: cs =>
    let run := (c :: cs).takeWhile isJsWs
    match (c :: cs).drop run.length with
    | d :: rest =>
      if d = ',' || d = ';' then
        cur.reverse ::
          splitSepsAux fuel (rest.drop (rest.takeWhile isJsWs).length) []
      else if run.contains '\n' then
        cur.reverse :: splitSepsAux fuel (d :: rest) []
      else
        splitSepsAux fuel cs (c :: cur)
    | [] =>
      if run.contains '\n' then cur.reverse :: [[]]
      else splitSepsAux fuel cs (c :: cur)

/-- String-level keyword splitting of the cleaned LLM response. -/
def splitSeps (s : String) : List String :=
  (splitSepsAux s.length s.data []).map List.asString

/-- Regex `replace(/([a-z])([A-Z])/g, '$1 $2')`: insert a space at each
camel-case transition (non-overlapping, left to right). -/
def camelSpace : List Char → List Char
  | [] => []
  | [c] => [c]
  | a :: b :: rest =>
    if ('a' ≤ a && a ≤ 'z') && ('A' ≤ b && b ≤ 'Z') then
      a :: ' ' :: b :: camelSpace rest
    else
      a :: camelSpace (b :: rest)

/-- Common programming terms filtered from LLM keywords
(`commonTerms` in `extractKeywordsUsingLLM`). -/
def commonTerms : List String :=
  ["function", "class", "method", "variable", "const", "let", "var",
   "string", "number", "boolean", "array", "object", "interface", "type",
   "export", "import", "require", "module", "package", "default"]

/-- Derived keywords pushed for one parsed keyword: plural/singular
variant, dash-separated parts, camel-case parts
(`extractKeywordsUsingLLM`, derived-keywords loop). -/
def derivedFor (kw : String) : List String :=
  let pluralPart :=
    if kw.data.getLast? = some 's' then
      if 4 < kw.length then [(⟨kw.data.dropLast⟩ : String)] else []
    else
      if 3 < kw.length then [kw ++ "s"] else []
  let dashParts :=
    if strContains kw '-' then
      (splitChar kw '-').filter (fun p => 3 < p.length)
    else []
  let camelParts :=
    if Utils.hasCamelTransition kw then
      (splitChar (jsToLower ⟨camelSpace kw.data⟩) ' ').filter
        (fun p => 3 < p.length)
    else []
  pluralPart ++ dashParts ++ camelParts

/-- Keyword post-processing of a successful LLM response
(`extractKeywordsUsingLLM`, success path). -/
def processLLMResponse (response : String) : List String :=
  let keywords :=
    ((splitSeps (jsTrim (cleanResp response))).map
        (fun kw => jsToLower (jsTrim kw))).filter
      (fun kw => 0 < kw.length)
  let derivedKeywords := keywords.flatMap derivedFor
  let allKeywords := jsDedup (keywords ++ derivedKeywords)
  (allKeywords.filter (fun kw => !commonTerms.contains kw)).take 20

/-- System prompt of the LLM keyword-extraction request. -/
def llmSystemPrompt : String :=
  "You are an expert at analyzing code and extracting relevant technical keywords.\nGiven a git diff, identify the most important technical keywords that would help match this code to relevant GitHub issues.\nFocus on:\n1. Technical terms (languages, frameworks, libraries)\n2. Architectural concepts\n3. Feature names and functionality\n4. Component names\n5. API or service names\n\nONLY return a comma-separated list of 10-15 keywords, prioritizing specificity and technical relevance.\nDO NOT include explanations, bullet points, or any other formatting."

/-- User prompt of the LLM keyword-extraction request, built from the
(possibly truncated) diff. -/
def llmUserPrompt (truncatedDiff : String) : String :=
  "Extract the most relevant keywords from this diff that would help match it to GitHub issues:\n\n" ++ truncatedDiff

/-- Semantic keyword extraction `extractKeywordsUsingLLM` of
`src/utils.ts`.  The network round trip (dynamic import, client
construction, `createMessage`) is modelled by the `createMessage`
argument; `none` stands for any failure inside the `try` block
(malformed response, network error, timeout), in which case the
source falls back to `extractKeywordsFromDiff` on the same diff. -/
def extractKeywordsUsingLLM (createMessage : String → String → Option String)
    (diff : String) : List String :=
  let truncatedDiff :=
    if 15000 < diff.length then
      (⟨diff.data.take 5000⟩ : String) ++ "\n\n[...truncated...]\n\n" ++
        (⟨diff.data.drop (diff.length - 5000)⟩ : String)
    else diff
  match createMessage llmSystemPrompt (llmUserPrompt truncatedDiff) with
  | none => Utils.extractKeywordsFromDiff diff
  | some response => processLLMResponse response

end Utils

namespace GhOps

/-- Issue record fetched from the tracker (`interface Issue` in
`src/gh/ghOps.ts`); a label object `{name: string}` is modelled by its
name string. -/
structure Issue where
  number : Nat
  title : String
  state : Option String := none
  url : Option String := none
  body : Option String := none
  labels : Option (List String) := none
deriving DecidableEq, Repr

/-- Issue with relevance score (`interface ScoredIssue extends Issue`). -/
structure ScoredIssue extends Issue where
  score : Nat
deriving DecidableEq, Repr

/-- Quote characters of the import-pattern regex: `'` and `"`. -/
def isQuote (c : Char) : Bool :=
  c = Char.ofNat 39 || c = '"'

/-- Declaration keywords of the regex
`/\b(class|function|const|let|var)\s+([A-Za-z0-9_]+)/g`.  No alternative
is a prefix of another, so at most one can match at a position. -/
def declKeywords : List String :=
  ["class", "function", "const", "let", "var"]

/-- `matchAll` scan for the declaration regex; returns
(`match[0]`, `match[2]`) pairs in order.  `prevWord` tracks whether the
previous character is a word character (for `\b`). -/
def scanDecl (fuel : Nat) (prevWord : Bool) (s : List Char) :
    List (List Char × List Char) :=
  match fuel, s with
  | 0, _ => []
  | _, [] => []
  | fuel + 1, c :: cs =>
    let here : Option (Nat × List Char) :=
      if prevWord then none else
        match declKeywords.find? (fun k => k.data.isPrefixOf (c :: cs)) with
        | none => none
        | some k =>
          let rest := (c :: cs).drop k.length
          let ws := rest.takeWhile isJsWs
          let ident := (rest.drop ws.length).takeWhile isWordChar
          if ws.isEmpty || ident.isEmpty then none
          else some (k.length + ws.length + ident.length, ident)
    match here with
    | some (len, ident) =>
      ((c :: cs).take len, ident) :: scanDecl fuel true ((c :: cs).drop len)
    | none => scanDecl fuel (isWordChar c) cs

/-- Lazy tail `.*?['"]([^'"]+)['"]` of the import regex, attempted from a
given suffix: the dot does not match a newline, so the scan advances
until a quote followed by a nonempty quote-free run and a closing quote,
failing at a newline.  Returns (consumed length, quoted content). -/
def lazyQuoted (fuel : Nat) (s : List Char) : Option (Nat × List Char) :=
  match fuel, s with
  | 0, _ => none
  | _, [] => none
  | fuel + 1, c :: cs =>
    let content := cs.takeWhile (fun d => !isQuote d)
    if isQuote c && !content.isEmpty &&
        isQuote ((cs.drop content.length).headD ' ') then
      some (1 + content.length + 1, content)
    else if c = '\n' then none
    else (lazyQuoted fuel cs).map (fun p => (p.1 + 1, p.2))

/-- `matchAll` scan for `/\b(import|require)\s+.*?['"]([^'"]+)['"]/g`.
The greedy `\s+` backtracks from the longest whitespace run; for each
length the lazy tail is tried, in regex backtracking order. -/
def scanImports (fuel : Nat) (prevWord : Bool) (s : List Char) :
    List (List Char × List Char) :=
  match fuel, s with
  | 0, _ => []
  | _, [] => []
  | fuel + 1, c :: cs =>
    let here : Option (Nat × List Char) :=
      if prevWord then none else
        match ["import", "require"].find?
            (fun k => k.data.isPrefixOf (c :: cs)) with
        | none => none
        | some k =>
          let rest := (c :: cs).drop k.length
          let r := (rest.takeWhile isJsWs).length
          if r = 0 then none
          else
            ((List.range r).map (fun i => r - i)).findSome? (fun wlen =>
              (lazyQuoted rest.length (rest.drop wlen)).map
                (fun p => (k.length + wlen + p.1, p.2)))
    match here with
    | some (len, content) =>
      ((c :: cs).take len, content) ::
        scanImports fuel
          (isWordChar (((c :: cs).take len).getLastD ' '))
          ((c :: cs).drop len)
    | none => scanImports fuel (isWordChar c) cs

/-- `matchAll` scan for a case-insensitive word alternation
`/\b(a1|a2|…)\b/gi`; emits the lower-cased `match[0]`, which equals the
matched (all-lower-case) alternative. -/
def scanWordAlts (alts : List String) (fuel : Nat) (prevWord : Bool)
    (s : List Char) : List String :=
  match fuel, s with
  | 0, _ => []
  | _, [] => []
  | fuel + 1, c :: cs =>
    let here : Option String :=
      if prevWord then none else
        alts.find? (fun a =>
          decide (a.data = (((c :: cs).take a.length).map Char.toLower)) &&
          !isWordChar (((c :: cs).drop a.length).headD ' '))
    match here with
    | some a => a :: scanWordAlts alts fuel true ((c :: cs).drop a.length)
    | none => scanWordAlts alts fuel (isWordChar c) cs

/-- API/integration alternation of `extractImportantTerms`
(`/\b(api|provider|model|llm|anthropic|openai|ollama|claude|gpt)\b/gi`). -/
def apiAlts : List String :=
  ["api", "provider", "model", "llm", "anthropic", "openai", "ollama",
   "claude", "gpt"]

/-- Configuration alternation of `extractImportantTerms`
(`/\b(config|configuration|setting|parameter|option)\b/gi`). -/
def configAlts : List String :=
  ["config", "configuration", "setting", "parameter", "option"]

/-- Programming-concept alternation of `extractImportantTerms`
(`/\b(interface|type|enum|client|service|util|helper)\b/gi`). -/
def conceptAlts : List String :=
  ["interface", "type", "enum", "client", "service", "util", "helper"]

/-- LLM-functionality keywords checked as substrings of the lower-cased
diff (`llmKeywords` in `extractImportantTerms`). -/
def llmKeywords : List String :=
  ["llm", "provider", "model", "api", "key", "token", "anthropic",
   "claude", "openai", "gpt", "ollama", "langchain", "completion",
   "tokens", "language", "prompt", "chat", "message", "response",
   "commit", "format", "style", "generate", "semantic", "multiple"]

/-- Multi-word composite terms checked as substrings of the lower-cased
diff (`compositeTerms` in `extractImportantTerms`). -/
def compositeTerms : List String :=
  ["language model", "api key", "commit message", "commit format",
   "model selection", "token limit", "chat model", "base url",
   "system prompt", "default model", "multiple providers"]

/-- Candidate term contributed by one regex match: lower-cased `match[2]`
when it is longer than 3 characters, else lower-cased `match[0]` when
that is longer than 3 (`extractImportantTerms`, match loop). -/
def termOfMatch (m0 m2 : List Char) : Option String :=
  if 3 < m2.length then some (jsToLower ⟨m2⟩)
  else if 3 < m0.length then some (jsToLower ⟨m0⟩)
  else none

/-- Important technical terms extracted from the diff
(`extractImportantTerms` of `src/gh/ghOps.ts`): regex-pattern matches,
LLM keywords present in the diff, and composite terms (with their long
words), collected as an insertion-ordered set. -/
def extractImportantTerms (diff : String) : List String :=
  let d := diff.data
  let p1 := (scanDecl d.length false d).filterMap
    (fun m => termOfMatch m.1 m.2)
  let p2 := (scanImports d.length false d).filterMap
    (fun m => termOfMatch m.1 m.2)
  let p3 := (scanWordAlts apiAlts d.length false d).filterMap
    (fun a => if 3 < a.length then some a else none)
  let p4 := (scanWordAlts configAlts d.length false d).filterMap
    (fun a => if 3 < a.length then some a else none)
  let p5 := (scanWordAlts conceptAlts d.length false d).filterMap
    (fun a => if 3 < a.length then some a else none)
  let fromPatterns := (p1 ++ p2 ++ p3 ++ p4 ++ p5).foldl addUnique []
  let diffLower := jsToLower diff
  let withLlm :=
    (llmKeywords.filter (fun k => jsIncludes diffLower k)).foldl addUnique
      fromPatterns
  compositeTerms.foldl (fun acc t =>
    if jsIncludes diffLower t then
      ((splitChar t ' ').filter (fun w => 3 < w.length)).foldl addUnique
        (addUnique acc t)
    else acc) withLlm

/-- Replace every character outside `[\w\s]` by a space
(`.replace(/[^\w\s]/g, ' ')` in `fuzzyMatchIssues`). -/
def scrubPunct (s : String) : String :=
  ⟨s.data.map (fun c => if isWordChar c || isJsWs c then c else ' ')⟩

/-- The `diffWords` of `fuzzyMatchIssues`: lower-cased diff, punctuation
scrubbed, split on whitespace, words longer than 3 characters. -/
def diffWords (diff : String) : List String :=
  (splitWsRuns (scrubPunct (jsToLower diff))).filter
    (fun word => 3 < word.length)

/-- Broad technical-term catalogue of the secondary scoring phase
(`technicalTerms` in `fuzzyMatchIssues`). -/
def technicalTerms : List String :=
  ["api", "provider", "model", "llm", "language model",
   "anthropic", "openai", "ollama", "claude", "gpt",
   "config", "integration", "token", "completion"]

/-- Relevance score of one issue (`fuzzyMatchIssues`, scoring loop):
+10 per important term in the title, +8 per (label, term) inclusion,
+5 per term in the body, and +3/+1 for broad technical terms shared
with the diff word list via title/body. -/
def scoreIssue (importantTerms diffW : List String) (issue : Issue) : Nat :=
  let issueTitle := jsToLower issue.title
  let issueBody := jsToLower (issue.body.getD "")
  let labelNames := (issue.labels.getD []).map jsToLower
  let score := importantTerms.foldl
    (fun s term => if jsIncludes issueTitle term then s + 10 else s) 0
  let score := labelNames.foldl
    (fun s label => importantTerms.foldl
      (fun s term => if jsIncludes label term then s + 8 else s) s) score
  let score := importantTerms.foldl
    (fun s term => if jsIncludes issueBody term then s + 5 else s) score
  technicalTerms.foldl (fun s term =>
    let s := if jsIncludes issueTitle term && diffW.contains term
      then s + 3 else s
    if jsIncludes issueBody term && diffW.contains term
      then s + 1 else s) score

/-- Comparator of the JS `sort((a, b) => b.score - a.score)`: `a` may
come before `b` exactly when the comparator is ≤ 0. -/
def scoreOrder (a b : ScoredIssue) : Prop :=
  b.score ≤ a.score

instance : DecidableRel scoreOrder :=
  fun a b => Nat.decLe b.score a.score

instance : IsTotal ScoredIssue scoreOrder :=
  ⟨fun a b => Nat.le_total b.score a.score⟩

instance : IsTrans ScoredIssue scoreOrder :=
  ⟨fun _ _ _ h h' => Nat.le_trans h' h⟩

/-- Fuzzy issue matching `fuzzyMatchIssues` of `src/gh/ghOps.ts`: score
every issue against the diff, keep positive scores, sort by score
descending, return the top 5.  The JS `sort((a, b) => b.score - a.score)`
is a stable sort (ECMAScript requirement); a stable sort under a total
preorder is unique, so it is modelled by the stable `insertionSort`
under `scoreOrder`.  The `keywords` argument is accepted but, as in the
source, never used. -/
def fuzzyMatchIssues (issues : List Issue) (diff : String)
    (keywords : List String) : List ScoredIssue :=
  let dw := diffWords diff
  let importantTerms := extractImportantTerms diff
  let scoredIssues : List ScoredIssue :=
    issues.map (fun issue => ⟨issue, scoreIssue importantTerms dw issue⟩)
  let _ := keywords
  (((scoredIssues.filter (fun i => 0 < i.score)).insertionSort
      scoreOrder).take 5)

/-- String emptiness via the character list (kernel-reducible). -/
def strIsEmpty (s : String) : Bool :=
  s.data.isEmpty

/-- Explicit issue references in the diff: the matches of `/#\d+/g`
already stripped of their `#` (the source's
`diff.match(/#\d+/g).map(ref => ref.slice(1))`). -/
def issueRefDigits (fuel : Nat) (s : List Char) : List String :=
  match fuel, s with
  | 0, _ => []
  | _, [] => []
  | fuel + 1, c :: cs =>
    if c = '#' then
      let ds := cs.takeWhile isDigitChar
      if ds.isEmpty then issueRefDigits fuel cs
      else (⟨ds⟩ : String) :: issueRefDigits fuel (cs.drop ds.length)
    else issueRefDigits fuel cs

/-- JS truthiness of an optional string (`null` and `''` are falsy). -/
def jsTruthy (o : Option String) : Bool :=
  !(o.getD "").data.isEmpty

/-- Results the external collaborators (GitHub CLI, git remote, LLM,
interactive prompt) would hand to one run of the issue-selection flow.
Each field is the observed outcome of the corresponding call site;
`none` models a failed command or unparseable JSON. -/
structure GhEnv where
  ghVersionOk : Bool
  isGitHub : Bool
  repo : Option String
  directFetch : Option (List Issue)
  openIssues : Option (List Issue)
  kwFallbackSearch : Option (List Issue)
  searchFetch : Option (List Issue)
  view : Nat → Option Issue
  llmResponse : Option String
  promptResponse : Option String

/-- `getRelatedIssues` of `src/gh/ghOps.ts`, instrumented with a flag
recording whether `fuzzyMatchIssues` was invoked.  Control flow is
transcribed from the source: CLI/remote check, direct `#n` references
fetched first (a failed fetch is caught and falls through), otherwise
open issues are listed, keywords extracted (via the LLM when an API key
and provider are supplied), fuzzy matching applied, and a keyword search
used as last resort; every failure is caught and yields `[]`. -/
def getRelatedIssuesI (env : GhEnv) (diff : String)
    (apiKey provider : Option String) : List Issue × Bool :=
  if !(env.ghVersionOk && env.isGitHub) then ([], false)
  else
    let uniqueIssues := jsDedup (issueRefDigits diff.length diff.data)
    match env.repo with
    | none => ([], false)
    | some _ =>
      let issues : List Issue :=
        if !uniqueIssues.isEmpty then env.directFetch.getD [] else []
      if !issues.isEmpty then (issues, false)
      else
        match env.openIssues with
        | none => ([], false)
        | some openIssues =>
          let keywords :=
            if jsTruthy apiKey && jsTruthy provider then
              Utils.extractKeywordsUsingLLM (fun _ _ => env.llmResponse) diff
            else Utils.extractKeywordsFromDiff diff
          if !openIssues.isEmpty then
            let scoredIssues := fuzzyMatchIssues openIssues diff keywords
            let fuzzyIssues := scoredIssues.map (fun i => i.toIssue)
            if fuzzyIssues.isEmpty && !keywords.isEmpty then
              match env.kwFallbackSearch with
              | some l => (l, true)
              | none => ([], true)
            else (fuzzyIssues, true)
          else ([], false)

/-- `getRelatedIssues` as the caller sees it. -/
def getRelatedIssues (env : GhEnv) (diff : String)
    (apiKey provider : Option String) : List Issue :=
  (getRelatedIssuesI env diff apiKey provider).1

/-- `searchAndSelectIssue` of `src/gh/ghOps.ts`, returning both the
candidate list offered for selection (`allIssues`) and the selected
issue.  Related issues are gathered first; when none are found a keyword
search (limit 15) is scored by `fuzzyMatchIssues`; the prompt reply can
pick a list index, a `#n` reference, or a bare number (the latter two
fetched with `gh issue view`). -/
def searchAndSelectIssueI (env : GhEnv) (diff : String)
    (apiKey provider : Option String) : List Issue × Option Issue :=
  if !env.isGitHub then ([], none)
  else
    match env.repo with
    | none => ([], none)
    | some _ =>
      let relatedIssues := getRelatedIssues env diff apiKey provider
      let allIssues :=
        if relatedIssues.isEmpty then
          let keywords := Utils.extractKeywordsFromDiff diff
          if !keywords.isEmpty then
            match env.searchFetch with
            | some fetchedIssues =>
              if !fetchedIssues.isEmpty then
                (fuzzyMatchIssues fetchedIssues diff keywords).map
                  (fun i => i.toIssue)
              else []
            | none => []
          else []
        else relatedIssues
      let selectedIssue : Option Issue :=
        if !allIssues.isEmpty then
          match env.promptResponse with
          | none => none
          | some choice =>
            if strIsEmpty choice then none
            else
              match jsParseInt choice with
              | some v =>
                if decide (0 ≤ v - 1) &&
                    decide (v - 1 < (allIssues.length : Int)) then
                  allIssues.get? (v - 1).toNat
                else if jsStartsWith choice "#" then
                  match jsParseInt (strDrop choice 1) with
                  | some n => if 0 < n then env.view n.toNat else none
                  | none => none
                else if isAllDigits choice then env.view v.toNat
                else none
              | none =>
                if jsStartsWith choice "#" then
                  match jsParseInt (strDrop choice 1) with
                  | some n => if 0 < n then env.view n.toNat else none
                  | none => none
                else if isAllDigits choice then none
                else none
        else
          match env.promptResponse with
          | none => none
          | some manualIssue =>
            if !strIsEmpty manualIssue &&
                (jsStartsWith manualIssue "#" || isAllDigits manualIssue) then
              match (if jsStartsWith manualIssue "#"
                  then jsParseInt (strDrop manualIssue 1)
                  else jsParseInt manualIssue) with
              | some n => if 0 < n then env.view n.toNat else none
              | none => none
            else none
      (allIssues, selectedIssue)

end GhOps

namespace Main

/-- JS `s.substring(a, b)`: clamp both indices into `[0, length]`, swap
them when reversed, and return the characters in between. -/
def jsSubstring (s : String) (a b : Int) : String :=
  let n : Int := s.length
  let a' := min (max a 0) n
  let b' := min (max b 0) n
  let lo := min a' b'
  let hi := max a' b'
  ⟨(s.data.drop lo.toNat).take (hi - lo).toNat⟩

/-- `Math.round((diff.length - maxLength) / 1024)`: the division by the
power of two is exact in doubles, and `Math.round` rounds half up. -/
def kbRemoved (removed : Nat) : Nat :=
  (2 * removed + 1024) / 2048

/-- Truncation marker inserted between the kept slices. -/
def truncMarker (kb : Nat) : String :=
  "[... DIFF TRUNCATED: " ++ toString kb ++
    " KB removed to fit token limits ...]"

/-- `truncateLongDiff` of `main.ts`: diffs within the budget are returned
unchanged; longer diffs keep a head slice (`Math.floor(maxLength * 0.3)`
characters), a middle slice around the midpoint, and a tail slice
(`Math.floor(maxLength * 0.4)` characters), joined by truncation
markers.  The float products `maxLength * 0.3` / `* 0.4` are modelled by
the exact `⌊3L/10⌋` / `⌊4L/10⌋`, which agree with the doubles at the
budgets exercised in the theorems below; `middleStart` is
`Math.floor(diff.length / 2 - middleLength / 2)`, exact in doubles. -/
def truncateLongDiff (diff : String) (maxLength : Nat) : String :=
  if diff.length ≤ maxLength then diff
  else
    let beginningLength := maxLength * 3 / 10
    let beginning := jsSubstring diff 0 beginningLength
    let endLength := maxLength * 4 / 10
    let endPart :=
      jsSubstring diff ((diff.length : Int) - endLength) diff.length
    let middleLength : Int :=
      (maxLength : Int) - beginningLength - endLength - 60
    let middleStart : Int := Int.fdiv ((diff.length : Int) - middleLength) 2
    let middle := jsSubstring diff middleStart (middleStart + middleLength)
    let marker := truncMarker (kbRemoved (diff.length - maxLength))
    beginning ++ "\n\n" ++ marker ++ "\n\n" ++ middle ++ "\n\n" ++
      marker ++ "\n\n" ++ endPart

end Main

/-! ## Helper lemmas -/

theorem mem_foldl_addUnique [DecidableEq α] {x : α} :
    ∀ (l init : List α), x ∈ l.foldl addUnique init → x ∈ init ∨ x ∈ l := by
  intro l
  induction l with
  | nil => intro init h; exact Or.inl h
  | cons a t ih =>
    intro init h
    rcases ih (addUnique init a) h with h' | h'
    · unfold addUnique at h'
      split at h'
      · exact Or.inl h'
      · rcases List.mem_append.1 h' with h'' | h''
        · exact Or.inl h''
        · have hx : x = a := by simpa using h''
          exact Or.inr (hx ▸ List.mem_cons_self a t)
    · exact Or.inr (List.mem_cons_of_mem _ h')

theorem nodup_foldl_addUnique [DecidableEq α] :
    ∀ (l init : List α), init.Nodup → (l.foldl addUnique init).Nodup := by
  intro l
  induction l with
  | nil => intro init h; exact h
  | cons a t ih =>
    intro init h
    refine ih (addUnique init a) ?_
    unfold addUnique
    split
    · exact h
    · next hna => simpa [List.nodup_append] using ⟨h, hna⟩

theorem nodup_jsDedup [DecidableEq α] (l : List α) : (jsDedup l).Nodup :=
  nodup_foldl_addUnique l [] List.nodup_nil

theorem mem_jsDedup [DecidableEq α] {x : α} {l : List α}
    (h : x ∈ jsDedup l) : x ∈ l := by
  rcases mem_foldl_addUnique l [] h with h' | h'
  · cases h'
  · exact h'

theorem length_le_foldl_addUnique [DecidableEq α] :
    ∀ (l init : List α), init.length ≤ (l.foldl addUnique init).length := by
  intro l
  induction l with
  | nil => intro init; exact Nat.le_refl _
  | cons a t ih =>
    intro init
    refine Nat.le_trans ?_ (ih (addUnique init a))
    unfold addUnique
    split
    · exact Nat.le_refl _
    · simp

theorem jsDedup_ne_nil [DecidableEq α] {l : List α} (h : l ≠ []) :
    jsDedup l ≠ [] := by
  cases l with
  | nil => exact absurd rfl h
  | cons a t =>
    have : 1 ≤ (jsDedup (a :: t)).length := by
      have := length_le_foldl_addUnique t (addUnique [] a)
      simpa [jsDedup, addUnique] using this
    intro hnil
    rw [hnil] at this
    exact absurd this (by simp)

theorem foldl_add_if (l : List α) (p : α → Bool) (k n : ℕ) :
    l.foldl (fun s t => if p t then s + k else s) n
      = n + (l.map (fun t => if p t then k else 0)).sum := by
  induction l generalizing n with
  | nil => simp
  | cons a t ih =>
    by_cases h : p a <;> simp [h, ih, Nat.add_assoc]

theorem foldl_add_if2 (l : List α) (p q : α → Bool) (n : ℕ) :
    l.foldl (fun s t =>
        let s := if p t then s + 3 else s
        if q t then s + 1 else s) n
      = n + (l.map (fun t =>
          (if p t then 3 else 0) + (if q t then 1 else 0))).sum := by
  induction l generalizing n with
  | nil => simp
  | cons a t ih =>
    by_cases hp : p a <;> by_cases hq : q a <;>
      simp [hp, hq, ih, Nat.add_assoc]

theorem foldl_add_fun (l : List α) (g : α → ℕ) (n : ℕ) :
    l.foldl (fun s o => s + g o) n = n + (l.map g).sum := by
  induction l generalizing n with
  | nil => simp
  | cons a t ih => simp [ih, Nat.add_assoc]

theorem foldl_nested_add (outer inner : List α) (f : α → α → Bool) (n : ℕ) :
    outer.foldl (fun s o => inner.foldl
        (fun s t => if f o t then s + 8 else s) s) n
      = n + (outer.map (fun o =>
          (inner.map (fun t => if f o t then 8 else 0)).sum)).sum := by
  have h1 : (fun (s : ℕ) (o : α) => inner.foldl
        (fun s t => if f o t then s + 8 else s) s)
      = fun s o => s + (inner.map (fun t => if f o t then 8 else 0)).sum := by
    funext s o
    exact foldl_add_if inner (f o) 8 s
  rw [h1, foldl_add_fun]

/-! ## Concrete fixtures used by counterexamples and witnesses -/

/-- Issue 101, titled so that one important term matches the title. -/
def i101 : GhOps.Issue := { number := 101, title := "config" }

/-- Issue 87, identical title, smaller number. -/
def i87 : GhOps.Issue := { number := 87, title := "config" }

/-- A 300-character diff, exceeding a budget of 100. -/
def longDiff : String := ⟨List.replicate 300 'a'⟩

/-! ## Claims -/

/-- C1 (counterexample): on the input list `[issue 101, issue 87]`, both
scoring 13 for the diff `"config"`, `fuzzyMatchIssues` does NOT order
the tie by ascending issue number — the claimed ordering predicate
(descending score, ties by ascending number) fails on the output. -/
theorem claim1_counterexample :
    ¬ (GhOps.fuzzyMatchIssues [i101, i87] "config" []).Pairwise
        (fun A B => B.score < A.score ∨
          (A.score = B.score ∧ A.number < B.number)) := by
  decide

/-- C1 (amended): the list returned by `fuzzyMatchIssues` is ordered by
score descending (non-strictly); equal scores are NOT broken by issue
number — the stable sort keeps fetch order, so the 101/87 example with
equal scores 13 returns 101 first. -/
theorem claim1_amended :
    (∀ (issues : List GhOps.Issue) (diff : String) (keywords : List String),
        (GhOps.fuzzyMatchIssues issues diff keywords).Pairwise
          (fun A B => B.score ≤ A.score))
    ∧ (GhOps.fuzzyMatchIssues [i101, i87] "config" []).map
        (fun i => (i.number, i.score)) = [(101, 13), (87, 13)] := by
  constructor
  · intro issues diff keywords
    simp only [GhOps.fuzzyMatchIssues]
    refine List.Pairwise.sublist (List.take_sublist _ _) ?_
    exact List.sorted_insertionSort GhOps.scoreOrder _
  · decide

/-- C2: the score computed by `fuzzyMatchIssues` for an issue is the sum
of +10 per important term included in the lower-cased title, +8 per
(label, important term) inclusion pair, +5 per important term included
in the lower-cased body, and, over the broad technical-term catalogue,
+3 for a term in both title and diff word-list and +1 for a term in
both body and diff word-list. -/
theorem claim2_score_formula (issue : GhOps.Issue) (diff : String) :
    GhOps.scoreIssue (GhOps.extractImportantTerms diff)
        (GhOps.diffWords diff) issue
      = ((GhOps.extractImportantTerms diff).map (fun t =>
          if jsIncludes (jsToLower issue.title) t then 10 else 0)).sum
      + (((issue.labels.getD []).map jsToLower).map (fun lab =>
          ((GhOps.extractImportantTerms diff).map (fun t =>
            if jsIncludes lab t then 8 else 0)).sum)).sum
      + ((GhOps.extractImportantTerms diff).map (fun t =>
          if jsIncludes (jsToLower (issue.body.getD "")) t then 5 else 0)).sum
      + (GhOps.technicalTerms.map (fun t =>
          (if jsIncludes (jsToLower issue.title) t
              && (GhOps.diffWords diff).contains t then 3 else 0)
          + (if jsIncludes (jsToLower (issue.body.getD "")) t
              && (GhOps.diffWords diff).contains t then 1 else 0))).sum := by
  simp only [GhOps.scoreIssue]
  rw [foldl_add_if, foldl_nested_add, foldl_add_if, foldl_add_if2]
  omega

/-- C3: `fuzzyMatchIssues` returns at most 5 issues, every returned
entry has strictly positive score, and an issue whose computed score is
0 is absent from the result. -/
theorem claim3_positive_top5 (issues : List GhOps.Issue) (diff : String)
    (keywords : List String) :
    (GhOps.fuzzyMatchIssues issues diff keywords).length ≤ 5
    ∧ (∀ si ∈ GhOps.fuzzyMatchIssues issues diff keywords, 0 < si.score)
    ∧ (∀ i ∈ issues,
        GhOps.scoreIssue (GhOps.extractImportantTerms diff)
          (GhOps.diffWords diff) i = 0 →
        ∀ si ∈ GhOps.fuzzyMatchIssues issues diff keywords,
          si.toIssue ≠ i) := by
  refine ⟨?_, ?_, ?_⟩
  · simp only [GhOps.fuzzyMatchIssues]
    exact List.length_take_le _ _
  · intro si hsi
    simp only [GhOps.fuzzyMatchIssues] at hsi
    have h2 := (List.mem_insertionSort _).1 (List.mem_of_mem_take hsi)
    have h3 := List.mem_filter.1 h2
    simpa using h3.2
  · intro i _ hscore si hsi hEq
    simp only [GhOps.fuzzyMatchIssues] at hsi
    have h2 := (List.mem_insertionSort _).1 (List.mem_of_mem_take hsi)
    have h3 := List.mem_filter.1 h2
    have hpos : 0 < si.score := by simpa using h3.2
    rcases List.mem_map.1 h3.1 with ⟨i', _, hmk⟩
    cases hmk
    have hii : i' = i := hEq
    rw [hii, hscore] at hpos
    exact Nat.lt_irrefl 0 hpos

/-- C3 (witness): instantiation at one issue titled `"config"` against
the diff `"config"`, scoring 13. -/
theorem claim3_witness :
    (GhOps.fuzzyMatchIssues [i87] "config" []).length ≤ 5
    ∧ 0 < (⟨i87, 13⟩ : GhOps.ScoredIssue).score :=
  ⟨(claim3_positive_top5 [i87] "config" []).1,
   (claim3_positive_top5 [i87] "config" []).2.1 ⟨i87, 13⟩ (by decide)⟩

/-- C5 (counterexample): `truncateLongDiff` is NOT idempotent on a diff
exceeding the budget — a 300-character diff truncated to budget 100
yields a 224-character result, which truncation at 100 changes again. -/
theorem claim5_counterexample :
    Main.truncateLongDiff (Main.truncateLongDiff longDiff 100) 100
      ≠ Main.truncateLongDiff longDiff 100 := by
  decide

/-- C5 (amended): `truncateLongDiff` is idempotent at a fixed budget
only for diffs that fit the budget (where it is the identity); for a
longer diff the output exceeds the budget — markers add more characters
than the slices drop — so re-truncating changes it. -/
theorem claim5_amended (diff : String) (L : ℕ) (h : diff.length ≤ L) :
    Main.truncateLongDiff (Main.truncateLongDiff diff L) L
      = Main.truncateLongDiff diff L := by
  have h1 : Main.truncateLongDiff diff L = diff := by
    simp [Main.truncateLongDiff, h]
  rw [h1]
  exact h1

/-- C5 (witness for the amended claim): a 4-character diff at budget 7. -/
theorem claim5_witness :
    ("abcd" : String).length ≤ 7
    ∧ Main.truncateLongDiff (Main.truncateLongDiff "abcd" 7) 7
      = Main.truncateLongDiff "abcd" 7 :=
  ⟨by decide, claim5_amended "abcd" 7 (by decide)⟩

/-- C10: `truncateLongDiff` is the identity on diffs whose length is at
most the budget; no markers are inserted. -/
theorem claim10_identity (diff : String) (maxLength : ℕ)
    (h : diff.length ≤ maxLength) :
    Main.truncateLongDiff diff maxLength = diff := by
  simp [Main.truncateLongDiff, h]

/-- C10 (witness): a 3-character diff at budget 10 is unchanged. -/
theorem claim10_witness :
    ("abc" : String).length ≤ 10
    ∧ Main.truncateLongDiff "abc" 10 = "abc" :=
  ⟨by decide, claim10_identity "abc" 10 (by decide)⟩

theorem length_jsToLower (s : String) : (jsToLower s).length = s.length := by
  show (s.data.map Char.toLower).length = s.data.length
  simp

theorem mem_rawWords_length {diff w : String}
    (h : w ∈ Utils.rawWords diff) : 3 < w.length := by
  have h2 := (List.mem_filter.1 h).2
  simp only [Bool.and_eq_true, decide_eq_true_eq] at h2
  exact h2.1.1.1

/-- C4 (counterexample): for the diff `"+llm with"` the extracted
keywords are `["llm", "with"]`: `"llm"` (from the LLM-term catalogue)
has length 3, and `"with"` is a common English function word of the
stop-word list, so the claimed length and stop-word properties fail. -/
theorem claim4_counterexample :
    ¬ (∀ w ∈ Utils.extractKeywordsFromDiff "+llm with",
        3 < w.length ∧ w ∉ Utils.commonWords) := by
  decide

/-- C4 (amended): `extractKeywordsFromDiff` returns a duplicate-free
list of size at most 20 in which every element has length greater
than 3 or is one of the fixed LLM-term catalogue entries (which include
the 3-character `"llm"` and `"gpt"`, added on whole-diff substring
matches); this revision applies no stop-word filtering of common
English function words. -/
theorem claim4_amended (diff : String) :
    (Utils.extractKeywordsFromDiff diff).Nodup
    ∧ (Utils.extractKeywordsFromDiff diff).length ≤ 20
    ∧ ∀ w ∈ Utils.extractKeywordsFromDiff diff,
        3 < w.length ∨ w ∈ Utils.llmTerms := by
  refine ⟨?_, ?_, ?_⟩
  · simp only [Utils.extractKeywordsFromDiff]
    exact (nodup_jsDedup _).sublist (List.take_sublist _ _)
  · simp only [Utils.extractKeywordsFromDiff]
    exact List.length_take_le _ _
  · intro w hw
    simp only [Utils.extractKeywordsFromDiff] at hw
    have h2 := mem_jsDedup (List.mem_of_mem_take hw)
    rcases List.mem_append.1 h2 with hT | hR
    · rcases mem_foldl_addUnique _ _ hT with h0 | hcat
      · cases h0
      · rcases List.mem_append.1 hcat with hABC | hLlm
        · rcases List.mem_append.1 hABC with hAB | hApi
          · rcases List.mem_append.1 hAB with hCam | hSep
            · rcases List.mem_map.1 hCam with ⟨w', hw', rfl⟩
              have := mem_rawWords_length (List.mem_filter.1 hw').1
              rw [length_jsToLower]
              exact Or.inl this
            · rcases List.mem_map.1 hSep with ⟨w', hw', rfl⟩
              have := mem_rawWords_length (List.mem_filter.1 hw').1
              rw [length_jsToLower]
              exact Or.inl this
          · rcases List.mem_filterMap.1 hApi with ⟨w', hw', heq⟩
            by_cases hc : (Utils.apiTerms.any
                (fun t => jsIncludes (jsToLower w') t)) = true
            · rw [if_pos hc] at heq
              cases heq
              rw [length_jsToLower]
              exact Or.inl (mem_rawWords_length hw')
            · rw [if_neg hc] at heq
              cases heq
        · exact Or.inr (List.mem_filter.1 hLlm).1
    · have h3 := List.mem_filter.1 hR
      exact Or.inl (by simpa using h3.2)

/-- C4 (witness for the amended claim): instantiation at the diff
`"+llm with"`, whose first keyword `"llm"` is an LLM catalogue entry. -/
theorem claim4_witness :
    (Utils.extractKeywordsFromDiff "+llm with").Nodup
    ∧ (Utils.extractKeywordsFromDiff "+llm with").length ≤ 20
    ∧ (3 < ("llm" : String).length ∨ ("llm" : String) ∈ Utils.llmTerms) :=
  ⟨(claim4_amended "+llm with").1, (claim4_amended "+llm with").2.1,
   (claim4_amended "+llm with").2.2 "llm" (by decide)⟩

/-- Tracker environment whose open-issue fetch returns the same issue
number twice. -/
def envDup : GhOps.GhEnv :=
  { ghVersionOk := true, isGitHub := true, repo := some "o/r",
    directFetch := none, openIssues := some [i87, i87],
    kwFallbackSearch := none, searchFetch := none,
    view := fun _ => none, llmResponse := none, promptResponse := none }

/-- C6 (counterexample): when the open-issue fetch returns issue 87
twice, the candidate list assembled by `searchAndSelectIssue` presents
number 87 twice — fetched lists are not deduplicated by issue number. -/
theorem claim6_counterexample :
    ((GhOps.searchAndSelectIssueI envDup "config" none none).1.map
        (fun i => i.number)) = [87, 87]
    ∧ ¬ ((GhOps.searchAndSelectIssueI envDup "config" none none).1.map
        (fun i => i.number)).Nodup := by
  decide

/-- C6 (amended): no deduplication by issue number is performed; each
issue number occurs in the scored candidate list at most as many times
as in the fetched list (filtering, stable sorting and capping can only
drop occurrences), and a fetch result repeating a number may be
presented with that number repeated. -/
theorem claim6_amended (issues : List GhOps.Issue) (diff : String)
    (keywords : List String) (n : ℕ) :
    ((GhOps.fuzzyMatchIssues issues diff keywords).map
        (fun si => si.number)).count n
      ≤ (issues.map (fun i => i.number)).count n := by
  simp only [GhOps.fuzzyMatchIssues]
  refine Nat.le_trans
    (((List.take_sublist _ _).map _).count_le n) ?_
  rw [((List.perm_insertionSort GhOps.scoreOrder _).map _).count_eq n]
  refine Nat.le_trans (((List.filter_sublist _).map _).count_le n) ?_
  rw [List.map_map]
  exact Nat.le_refl _

/-- Tracker environment with an explicit `#42` reference resolving to
one issue. -/
def issue42 : GhOps.Issue := { number := 42, title := "Fix login bug" }

/-- Environment where the direct-reference fetch succeeds. -/
def envDirect : GhOps.GhEnv :=
  { ghVersionOk := true, isGitHub := true, repo := some "o/r",
    directFetch := some [issue42], openIssues := none,
    kwFallbackSearch := none, searchFetch := none,
    view := fun _ => none, llmResponse := none, promptResponse := none }

/-- C7: when the diff contains `#n` references and the tracker fetch
for the deduplicated numbers succeeds with a non-empty result,
`getRelatedIssues` returns exactly those fetched issues and
`fuzzyMatchIssues` is never invoked (the instrumentation flag is
`false`). -/
theorem claim7_direct_refs (env : GhOps.GhEnv) (diff : String)
    (apiKey provider : Option String) (r : String) (l : List GhOps.Issue)
    (hgv : env.ghVersionOk = true) (hgh : env.isGitHub = true)
    (hrepo : env.repo = some r)
    (hrefs : GhOps.issueRefDigits diff.length diff.data ≠ [])
    (hfetch : env.directFetch = some l) (hne : l ≠ []) :
    GhOps.getRelatedIssuesI env diff apiKey provider = (l, false) := by
  have hdedup := jsDedup_ne_nil hrefs
  simp [GhOps.getRelatedIssuesI, hgv, hgh, hrepo, hfetch, hdedup, hne]

/-- C7 (witness): a diff containing `#42` with issue 42 existing yields
exactly issue 42, without fuzzy scoring. -/
theorem claim7_witness :
    GhOps.getRelatedIssuesI envDirect "fix #42" none none
      = ([issue42], false) :=
  claim7_direct_refs envDirect "fix #42" none none "o/r" [issue42]
    rfl rfl rfl (by decide) rfl (by decide)

/-- C8: whenever the LLM call fails (`createMessage` yields no
response — malformed response, network error, or timeout are all caught
by the source's `try`), `extractKeywordsUsingLLM` does not raise but
returns the lexical extraction `extractKeywordsFromDiff` of the same
diff. -/
theorem claim8_llm_fallback
    (createMessage : String → String → Option String) (diff : String)
    (h : ∀ s u, createMessage s u = none) :
    Utils.extractKeywordsUsingLLM createMessage diff
      = Utils.extractKeywordsFromDiff diff := by
  simp [Utils.extractKeywordsUsingLLM, h]

/-- C8 (witness): a failing LLM call on the diff `"+auth fix"` falls
back to the lexical extraction. -/
theorem claim8_witness :
    (∀ s u, (fun (_ _ : String) => (none : Option String)) s u = none)
    ∧ Utils.extractKeywordsUsingLLM (fun _ _ => none) "+auth fix"
      = Utils.extractKeywordsFromDiff "+auth fix" :=
  ⟨fun _ _ => rfl, claim8_llm_fallback _ _ (fun _ _ => rfl)⟩

/-- C9: when every tracker call fails (failed command or unparseable
JSON at each `gh` call site, for any CLI/remote state),
`getRelatedIssues` returns the empty list and `searchAndSelectIssue`
selects nothing, for every diff and every prompt reply — issue
selection never aborts the commit flow. -/
theorem claim9_failures_nonfatal (env : GhOps.GhEnv) (diff : String)
    (apiKey provider : Option String)
    (hdirect : env.directFetch = none) (hopen : env.openIssues = none)
    (_hkw : env.kwFallbackSearch = none) (hsearch : env.searchFetch = none)
    (hview : ∀ n, env.view n = none) :
    GhOps.getRelatedIssues env diff apiKey provider = []
    ∧ (GhOps.searchAndSelectIssueI env diff apiKey provider).2 = none := by
  have hrelI : GhOps.getRelatedIssuesI env diff apiKey provider
      = ([], false) := by
    unfold GhOps.getRelatedIssuesI
    by_cases hb : (env.ghVersionOk && env.isGitHub) = true
    · cases hr : env.repo with
      | none => simp [hb, hr]
      | some r => simp [hb, hr, hdirect, hopen]
    · have hb' : (env.ghVersionOk && env.isGitHub) = false := by
        simpa using hb
      simp [hb']
  have hrel : GhOps.getRelatedIssues env diff apiKey provider = [] := by
    unfold GhOps.getRelatedIssues
    rw [hrelI]
  refine ⟨hrel, ?_⟩
  unfold GhOps.searchAndSelectIssueI
  by_cases hg : env.isGitHub = true
  · cases hr : env.repo with
    | none => simp [hg, hr]
    | some r =>
      cases hp : env.promptResponse with
      | none => simp [hg, hr, hrel, hsearch, hp]
      | some m =>
        simp only [hg, hr, hrel, hsearch, hp]
        simp [hview]
        intro _ _
        split <;> rfl
  · have hg' : env.isGitHub = false := by simpa using hg
    simp [hg']

/-- Environment in which every tracker command fails. -/
def envFail : GhOps.GhEnv :=
  { ghVersionOk := true, isGitHub := true, repo := some "o/r",
    directFetch := none, openIssues := none,
    kwFallbackSearch := none, searchFetch := none,
    view := fun _ => none, llmResponse := none,
    promptResponse := some "#42" }

/-- C9 (witness): with every tracker call failing and the user typing
`#42`, `getRelatedIssues` returns `[]` and nothing is selected. -/
theorem claim9_witness :
    GhOps.getRelatedIssues envFail "fix #42" none none = []
    ∧ (GhOps.searchAndSelectIssueI envFail "fix #42" none none).2 = none :=
  claim9_failures_nonfatal envFail "fix #42" none none
    rfl rfl rfl rfl (fun _ => rfl)

/-! ## Evaluation sanity checks of the embedding -/

/-- The important-terms extraction finds the configuration-pattern match
on the diff `"config"`. -/
theorem extractImportantTerms_eval :
    GhOps.extractImportantTerms "config" = ["config"] := by decide

/-- Lexical keyword extraction on a one-line added diff: camel-case
split, API-term detection, and LLM-catalogue detection. -/
theorem extractKeywordsFromDiff_eval :
    Utils.extractKeywordsFromDiff "+const apiClient = new AuthProvider(config);"
      = ["apiclient", "authprovider", "config", "provider", "const"] := by
  decide

/-- LLM response parsing: prefix stripping, comma splitting,
plural/singular and dash-part derivation. -/
theorem processLLMResponse_eval :
    Utils.processLLMResponse "Keywords: auth, tokens, login-page"
      = ["auth", "tokens", "login-page", "auths", "token",
         "login-pages", "login", "page"] := by
  decide

/-- A 300-character diff truncated to budget 100 has 224 characters:
30 + 40 + 30 kept characters, two 58-character markers and four
2-character separators — the output exceeds the budget. -/
theorem truncateLongDiff_eval :
    (Main.truncateLongDiff longDiff 100).length = 224 := by decide

end AutoCommit
